import Mathlib

/-!
Verification of the gmailAPI utility library (src/utils.py).

Text (a Python str) is modelled as a list of characters, raw bytes as
lists of natural numbers below 256, and the file system as association
lists from paths to directory listings, file contents and decoded
images.  Python assertion failures are modelled with an explicit error
type, following the error taxonomy of the specification.
-/

/-- Text (a Python str) modelled as a list of characters. -/
abbrev Str := List Char

deriving instance DecidableEq for Except

/-- Split a character list at every character satisfying the test, keeping
empty segments: the model of a single-character split such as the pandas
regex split on whitespace, semicolon or newline. -/
def splitOnPred (p : Char → Bool) : Str → List Str
  | [] => [[]]
  | c :: rest =>
    if p c then [] :: splitOnPred p rest
    else
      match splitOnPred p rest with
      | [] => [[c]]
      | l :: ls => (c :: l) :: ls

/-- Split on a single delimiter character, keeping empty segments: the model
of Python str.split with a one-character separator. -/
def splitOnChar (d : Char) : Str → List Str :=
  splitOnPred (fun c => c == d)

/-- Join a list of segments with a single delimiter character: the model of
Python d.join(segments). -/
def joinWith (d : Char) : List Str → Str
  | [] => []
  | [l] => l
  | l :: l2 :: ls => l ++ d :: joinWith d (l2 :: ls)

/-- Model of Python str.splitlines restricted to the newline character:
splits at line boundaries, without a trailing empty line when the text
ends in a newline. -/
def splitlines (s : Str) : List Str :=
  if s = [] then []
  else
    let parts := splitOnChar '\n' s
    if parts.getLastD [] = [] then parts.dropLast else parts

/-- The final dot-delimited segment of a filename, the model of
name.split('.')[-1] in the source: for a dotless name this is the whole
name. -/
def lastDotSegment (s : Str) : Str :=
  (splitOnChar '.' s).getLastD []

/-- A Python argument that is either a single string or a list of strings. -/
inductive StrOrList where
  | str (s : Str)
  | list (l : List Str)

/-- Embedding of str2list (src/utils.py lines 143-160): wrap a lone string
in a singleton list, pass a list through unchanged. -/
def str2list : StrOrList → List Str
  | .str s => [s]
  | .list l => l

/-- Character-by-character model of Python str.startswith. -/
def startsWithChars : Str → Str → Bool
  | _, [] => true
  | [], _ :: _ => false
  | c :: s, d :: pat => c == d && startsWithChars s pat

/-- Character-by-character model of Python str.endswith. -/
def endsWithChars (s pat : Str) : Bool :=
  startsWithChars s.reverse pat.reverse

/-- Model of Python str.lower. -/
def toLowerStr (s : Str) : Str :=
  s.map Char.toLower

/-- Error taxonomy of the specification: assertion failures on missing
paths are NotFoundError, violated argument preconditions are
ValidationError, image decode failures are AttachmentError. -/
inductive UtilError where
  | NotFoundError (msg : Str)
  | ValidationError (msg : Str)
  | AttachmentError (msg : Str)
deriving DecidableEq

/-- Modelled from the spec: a decoded image carries only its two spatial
dimensions (the cv2 pixel buffer is external to the repository; the
specification constrains only the dimensions). -/
structure Image where
  height : Nat
  width : Nat
deriving DecidableEq

/-- The file-system state the utilities read: folder listings, text/raw
file contents (characters, with codepoints below 256 for binary files),
and the images that cv2 would successfully decode at a given path. -/
structure FileSystem where
  folders : List (Str × List Str)
  files : List (Str × Str)
  images : List (Str × Image)

/-- Model of os.path.exists over the file-system state. -/
def FileSystem.pathExists (fs : FileSystem) (p : Str) : Bool :=
  (fs.folders.lookup p).isSome || (fs.files.lookup p).isSome

/-- Model of os.listdir: the immediate children of a folder. -/
def FileSystem.listdir (fs : FileSystem) (p : Str) : List Str :=
  (fs.folders.lookup p).getD []

/-- Model of open(path).read(): the text content at a path. -/
def FileSystem.readText (fs : FileSystem) (p : Str) : Str :=
  (fs.files.lookup p).getD []

/-- Model of open(path, 'rb').read(): the raw bytes at a path. -/
def FileSystem.readBytes (fs : FileSystem) (p : Str) : List Nat :=
  (fs.readText p).map Char.toNat

/-- Model of os.path.join for a folder and an immediate child. -/
def joinPath (folder name : Str) : Str :=
  folder ++ '/' :: name

/-- pandas boolean-mask selection files[idx] used by the file finder. -/
def maskSelect : List Str → List Bool → List Str
  | [], _ => []
  | _ :: _, [] => []
  | f :: fs, b :: bs => if b then f :: maskSelect fs bs else maskSelect fs bs

/-- Embedding of find_files_with_suffix (src/utils.py lines 108-140):
assert the folder exists, normalize the suffix argument, compute the last
dot-segment of every child name, and select the children whose segment is
in the suffix list. -/
def find_files_with_suffix (fs : FileSystem) (folder : Str) (suffix0 : StrOrList) :
    Except UtilError (List Str) :=
  if fs.pathExists folder then
    let sfx := str2list suffix0
    let files := fs.listdir folder
    let fileSuffixes := files.map lastDotSegment
    let idx := fileSuffixes.map (fun s => decide (s ∈ sfx))
    .ok (maskSelect files idx)
  else
    .error (.NotFoundError ("Folder ".data ++ folder ++ " does not exist".data))

/-- Sequencing of fallible steps: propagate an error, otherwise continue.
This is the model of consecutive Python statements after an assert. -/
def exBind {A B : Type} (x : Except UtilError A) (f : A → Except UtilError B) :
    Except UtilError B :=
  match x with
  | .error e => .error e
  | .ok a => f a

theorem exBind_ok {A B : Type} (a : A) (f : A → Except UtilError B) :
    exBind (.ok a) f = f a := rfl

theorem exBind_error {A B : Type} (e : UtilError) (f : A → Except UtilError B) :
    exBind (.error e) f = (.error e : Except UtilError B) := rfl

/-- The fixed whitelist of image extensions from is_file_image
(src/utils.py line 226). -/
def imageExtensions : List Str :=
  [".png".data, ".jpg".data, ".jpeg".data, ".tiff".data, ".bmp".data, ".gif".data]

/-- Embedding of is_file_image (src/utils.py lines 222-227): assert the
path exists, then test whether the lower-cased path ends with one of the
whitelisted image extensions. -/
def is_file_image (fs : FileSystem) (path : Str) : Except UtilError Bool :=
  if fs.pathExists path then
    .ok (imageExtensions.any (fun e => endsWithChars (toLowerStr path) e))
  else
    .error (.NotFoundError (path ++ " does not exist".data))

/-- Modelled from the spec: the rounding cv2.resize applies to a scaled
dimension, round(d * max_size / pixels_max) to the nearest integer. -/
def roundedScale (d ms pm : Nat) : Nat :=
  (round ((d * ms : ℚ) / pm)).toNat

/-- Embedding of the resize step of image2bytes (src/utils.py lines
253-257): when the longer spatial dimension exceeds max_size, rescale
both dimensions by max_size / pixels_max; otherwise pass the image
through.  The resampled pixel buffer is external (cv2); only the
dimensions are modelled. -/
def resizeIfTooLarge (img : Image) (max_size : Nat) : Image :=
  let pixels_max := max img.height img.width
  if max_size < pixels_max then
    { height := roundedScale img.height max_size pixels_max,
      width := roundedScale img.width max_size pixels_max }
  else img

/-- Modelled from the spec: cv2.imencode re-encodes the image to bytes in
the container format named by the file extension; the encoder itself is
external, so an explicit byte coding of the extension and dimensions
stands in for it. -/
def encodeImage (ext : Str) (img : Image) : List Nat :=
  ext.map Char.toNat ++ [img.height, img.width]

/-- Embedding of image2bytes (src/utils.py lines 230-262): assert the
path exists, assert it is an image by extension, decode it (cv2.imread,
modelled by the file-system image map), resize when the longer dimension
exceeds max_size, and re-encode to bytes. -/
def decodeImage (fs : FileSystem) (path : Str) : Except UtilError Image :=
  match fs.images.lookup path with
  | none => .error (.AttachmentError (path ++ " could not be decoded".data))
  | some img => .ok img

def image2bytes (fs : FileSystem) (path : Str) (max_size : Nat := 1024) :
    Except UtilError (List Nat) :=
  if fs.pathExists path then
    exBind (is_file_image fs path) (fun isImg =>
      if isImg then
        exBind (decodeImage fs path) (fun img =>
          .ok (encodeImage (lastDotSegment path) (resizeIfTooLarge img max_size)))
      else .error (.ValidationError (path ++ " is not an image".data)))
  else .error (.NotFoundError (path ++ " does not exist".data))

/-- One attachment of an outgoing message: payload bytes plus the declared
maintype and subtype passed to msg.add_attachment. -/
structure Attachment where
  data : List Nat
  maintype : Str
  subtype : Str
deriving DecidableEq

/-- The outgoing message assembled by create_message: body text, the three
address/subject headers, and the ordered attachments. -/
structure EmailMessage where
  body : Str
  email_to : Str
  email_from : Str
  subject : Str
  attachments : List Attachment
deriving DecidableEq

/-- The attachment loop of create_message (src/utils.py lines 87-96): for
each found file take its last dot-segment as the declared subtype, read it
via image2bytes when the image check holds and as raw bytes otherwise, and
attach it with the constant maintype "image". -/
def attachFiles (fs : FileSystem) (folder : Str) (max_image_size : Nat) :
    List Str → Except UtilError (List Attachment)
  | [] => .ok []
  | file :: rest =>
    exBind (is_file_image fs (joinPath folder file)) (fun isImg =>
      exBind (if isImg then image2bytes fs (joinPath folder file) max_image_size
              else .ok (fs.readBytes (joinPath folder file))) (fun data =>
        exBind (attachFiles fs folder max_image_size rest) (fun tailAtts =>
          .ok ({ data := data, maintype := "image".data,
                 subtype := lastDotSegment file } :: tailAtts))))

/-- Embedding of create_message (src/utils.py lines 45-98): assert the
attachment folder exists, normalize the suffix argument, find the matching
files, attach each of them, and return the assembled message. -/
def create_message (fs : FileSystem) (message email_from email_to subject : Str)
    (folder_attachents : Str) (attachment_suffix : StrOrList)
    (max_image_size : Nat := 1024) : Except UtilError EmailMessage :=
  if fs.pathExists folder_attachents then
    exBind (find_files_with_suffix fs folder_attachents (.list (str2list attachment_suffix)))
      (fun files => exBind (attachFiles fs folder_attachents max_image_size files)
        (fun atts =>
          .ok { body := message, email_to := email_to, email_from := email_from,
                subject := subject, attachments := atts }))
  else .error (.NotFoundError ("Folder ".data ++ folder_attachents ++ " does not exist".data))

/-- The whitespace characters of Python str.split() and of the regex
class backslash-s. -/
def isPySpace (c : Char) : Bool :=
  c == ' ' || c == '\t' || c == '\n' || c == '\r' || c == '\x0b' || c == '\x0c'

/-- Model of Python s.split() with no arguments: split on whitespace runs,
discarding empty tokens. -/
def pySplitWhitespace (s : Str) : List Str :=
  (splitOnPred isPySpace s).filter (fun t => !t.isEmpty)

/-- Embedding of process_email_list (src/utils.py lines 163-205): assert
the folder exists, find the files with the given suffix, read all their
lines, join with spaces, lower-case, collapse whitespace runs, split on
whitespace or semicolons, keep tokens containing an at sign, and strip
angle brackets from the survivors. -/
def process_email_list (fs : FileSystem) (folder : Str)
    (file_suffix : Str := "txt".data) : Except UtilError (List Str) :=
  if fs.pathExists folder then
    exBind (find_files_with_suffix fs folder (.str file_suffix)) (fun files =>
      let emails0 : List Str :=
        files.flatMap (fun f => splitlines (fs.readText (joinPath folder f)))
      let emails1 : List (List Str) := emails0.map (fun e => str2list (.str e))
      let joined : Str := joinWith ' ' (emails1.map (joinWith ' '))
      let lowered := toLowerStr joined
      let normalized := joinWith ' ' (pySplitWhitespace lowered)
      let toks := splitOnPred (fun c => isPySpace c || c == ';') normalized
      let withAt := toks.filter (fun t => t.contains '@')
      .ok (withAt.map (fun t => t.filter (fun c => !(c == '<' || c == '>')))))
  else .error (.NotFoundError ("Folder ".data ++ folder ++ " does not exist".data))

/-- The observable outcome of the interactive confirmation prompt: return
control to the caller, terminate the process with an exit status, or keep
waiting for another input line. -/
inductive PromptOutcome where
  | returned
  | exited (status : Nat)
  | waitingForInput
deriving DecidableEq

/-- The re-prompt loop of press_Yn_to_continue (src/utils.py lines
214-219) over the remaining input lines: accept Y by returning, accept n
by exiting with status 1 (sys.exit with a message), and otherwise consume
the next line. -/
def pressLoop : Str → List Str → PromptOutcome
  | inp, [] =>
    if inp = "Y".data then .returned
    else if inp = "n".data then .exited 1
    else .waitingForInput
  | inp, i :: r =>
    if inp = "Y".data then .returned
    else if inp = "n".data then .exited 1
    else pressLoop i r

/-- Embedding of press_Yn_to_continue (src/utils.py lines 208-219) as a
function of the sequence of input lines on standard input. -/
def press_Yn_to_continue (inputs : List Str) : PromptOutcome :=
  match inputs with
  | [] => .waitingForInput
  | inp :: rest => pressLoop inp rest

/-- The URL-safe base64 alphabet used by base64.urlsafe_b64encode:
the standard alphabet with plus and slash replaced by minus and
underscore. -/
def b64Alphabet : Str :=
  "ABCDEFGHIJKLMNOPQRSTUVWXYZabcdefghijklmnopqrstuvwxyz0123456789-_".data

/-- The alphabet character at a six-bit index. -/
def b64Char (n : Nat) : Char :=
  b64Alphabet.getD n 'A'

/-- The six-bit index of an alphabet character. -/
def b64Value (c : Char) : Nat :=
  b64Alphabet.indexOf c

/-- Modelled from the spec: base64.urlsafe_b64encode on a byte string —
standard base64 with URL-safe substitutions, padding kept.  Three input
bytes become four alphabet characters; a final group of one or two bytes
is padded with equal signs. -/
def b64encodeBytes : List Nat → Str
  | [] => []
  | [a] => [b64Char (a / 4), b64Char (a % 4 * 16), '=', '=']
  | [a, b] => [b64Char (a / 4), b64Char (a % 4 * 16 + b / 16), b64Char (b % 16 * 4), '=']
  | a :: b :: c :: rest =>
    b64Char (a / 4) :: b64Char (a % 4 * 16 + b / 16) ::
      b64Char (b % 16 * 4 + c / 64) :: b64Char (c % 64) :: b64encodeBytes rest

/-- Modelled from the spec: base64.urlsafe_b64decode, the inverse of the
encoder on well-formed input. -/
def b64decodeBytes : Str → List Nat
  | c1 :: c2 :: c3 :: c4 :: rest =>
    if c3 = '=' then [b64Value c1 * 4 + b64Value c2 / 16]
    else if c4 = '=' then
      [b64Value c1 * 4 + b64Value c2 / 16, b64Value c2 % 16 * 16 + b64Value c3 / 4]
    else
      [b64Value c1 * 4 + b64Value c2 / 16, b64Value c2 % 16 * 16 + b64Value c3 / 4,
        b64Value c3 % 4 * 64 + b64Value c4] ++ b64decodeBytes rest
  | _ => []

/-- The MIME part boundary of the modelled serialization.  Its first
character is outside the base64 alphabet and distinct from the first
character of every header line, so no other serialized line can collide
with it. -/
def mimeBoundary : Str := "#BOUNDARY".data

/-- Modelled from the spec: the serialized lines of one MIME attachment
part — boundary, Content-Type header with the declared maintype and
subtype, blank separator, and the base64-encoded payload. -/
def attachmentLines (a : Attachment) : List Str :=
  [mimeBoundary, "Content-Type: ".data ++ a.maintype ++ '/' :: a.subtype, [],
    b64encodeBytes a.data]

/-- Modelled from the spec: the lines of the RFC-5322-style serialization
produced by EmailMessage.as_bytes — the To, From and Subject header lines
in the insertion order of create_message, a blank separator, the body
lines, and the MIME attachment parts. -/
def messageLines (m : EmailMessage) : List Str :=
  ("To: ".data ++ m.email_to) :: ("From: ".data ++ m.email_from) ::
    ("Subject: ".data ++ m.subject) :: [] ::
    (splitOnChar '\n' m.body ++ m.attachments.flatMap attachmentLines)

/-- Modelled from the spec: the full byte serialization of an outgoing
message (EmailMessage.as_bytes is external to the repository). -/
def serializeMessage (m : EmailMessage) : List Nat :=
  (joinWith '\n' (messageLines m)).map Char.toNat

/-- The single-key record returned by message2bytes. -/
structure RawMessageDict where
  raw : Str
deriving DecidableEq

/-- Embedding of message2bytes (src/utils.py lines 101-105): URL-safe
base64 encoding of the full message byte serialization, wrapped in a
record under the key raw. -/
def message2bytes (m : EmailMessage) : RawMessageDict :=
  { raw := b64encodeBytes (serializeMessage m) }

/-- The fields recovered when a serialized message is parsed back. -/
structure ParsedMessage where
  email_to : Str
  email_from : Str
  subject : Str
  body : Str
  attachmentCount : Nat
deriving DecidableEq

/-- Modelled from the spec: parse the lines of a serialized message — read
the three header lines, take the body lines up to the first MIME boundary,
and count the boundary lines to count attachments. -/
def parseLines : List Str → Option ParsedMessage
  | tl :: fl :: sl :: bl :: rest =>
    if tl.take 4 = "To: ".data ∧ fl.take 6 = "From: ".data ∧
        sl.take 9 = "Subject: ".data ∧ bl = [] then
      some { email_to := tl.drop 4, email_from := fl.drop 6, subject := sl.drop 9,
             body := joinWith '\n' (rest.takeWhile (fun l => decide (l ≠ mimeBoundary))),
             attachmentCount := (rest.filter (fun l => decide (l = mimeBoundary))).length }
    else none
  | _ => none

/-- Modelled from the spec: re-parse serialized message bytes by decoding
the bytes to characters and splitting into lines. -/
def parseMessage (bs : List Nat) : Option ParsedMessage :=
  parseLines (splitOnChar '\n' (bs.map Char.ofNat))

/-! ## Lemmas about splitting and joining -/

theorem splitOnPred_ne_nil (p : Char → Bool) (s : Str) : splitOnPred p s ≠ [] := by
  induction s with
  | nil => simp [splitOnPred]
  | cons c rest ih =>
    rw [splitOnPred]
    split
    · simp
    · split <;> simp

theorem splitOnPred_mem (p : Char → Bool) (s : Str) :
    ∀ l ∈ splitOnPred p s, ∀ c ∈ l, c ∈ s ∧ p c = false := by
  induction s with
  | nil =>
    intro l hl c hc
    simp only [splitOnPred, List.mem_singleton] at hl
    subst hl
    simp at hc
  | cons a rest ih =>
    intro l hl c hc
    rw [splitOnPred] at hl
    by_cases h : p a
    · rw [if_pos h] at hl
      rcases List.mem_cons.mp hl with rfl | hl
      · simp at hc
      · have := ih l hl c hc
        exact ⟨List.mem_cons_of_mem _ this.1, this.2⟩
    · rw [if_neg h] at hl
      cases hs : splitOnPred p rest with
      | nil => exact absurd hs (splitOnPred_ne_nil p rest)
      | cons l0 ls =>
        rw [hs] at hl
        rcases List.mem_cons.mp hl with rfl | hl
        · rcases List.mem_cons.mp hc with rfl | hc0
          · exact ⟨List.mem_cons_self _ _, Bool.not_eq_true _ ▸ h⟩
          · have := ih l0 (hs ▸ List.mem_cons_self l0 ls) c hc0
            exact ⟨List.mem_cons_of_mem _ this.1, this.2⟩
        · have := ih l (hs ▸ List.mem_cons_of_mem l0 hl) c hc
          exact ⟨List.mem_cons_of_mem _ this.1, this.2⟩

theorem splitOnPred_all_false (p : Char → Bool) (s : Str)
    (h : ∀ c ∈ s, p c = false) : splitOnPred p s = [s] := by
  induction s with
  | nil => simp [splitOnPred]
  | cons a rest ih =>
    rw [splitOnPred]
    have ha : p a = false := h a (List.mem_cons_self _ _)
    rw [if_neg (by simp [ha])]
    rw [ih (fun c hc => h c (List.mem_cons_of_mem _ hc))]

theorem splitOnPred_append_delim (p : Char → Bool) (l rest : Str) (d : Char)
    (hd : p d = true) (hl : ∀ c ∈ l, p c = false) :
    splitOnPred p (l ++ d :: rest) = l :: splitOnPred p rest := by
  induction l with
  | nil => simp [splitOnPred, hd]
  | cons a l2 ih =>
    have ha : p a = false := hl a (List.mem_cons_self _ _)
    rw [List.cons_append, splitOnPred, if_neg (by simp [ha]),
      ih (fun c hc => hl c (List.mem_cons_of_mem _ hc))]

theorem joinWith_splitOnChar (d : Char) (s : Str) :
    joinWith d (splitOnChar d s) = s := by
  induction s with
  | nil => simp [splitOnChar, splitOnPred, joinWith]
  | cons a rest ih =>
    rw [splitOnChar, splitOnPred]
    by_cases h : a = d
    · rw [if_pos (by simp [h])]
      cases hs : splitOnPred (fun c => c == d) rest with
      | nil => exact absurd hs (splitOnPred_ne_nil _ rest)
      | cons l0 ls =>
        rw [joinWith]
        rw [splitOnChar, hs] at ih
        rw [ih, h]
        rfl
    · rw [if_neg (by simp [h])]
      cases hs : splitOnPred (fun c => c == d) rest with
      | nil => exact absurd hs (splitOnPred_ne_nil _ rest)
      | cons l0 ls =>
        rw [splitOnChar, hs] at ih
        cases ls with
        | nil =>
          rw [joinWith]
          rw [joinWith] at ih
          rw [ih]
        | cons l1 ls2 =>
          rw [joinWith, List.cons_append]
          rw [joinWith] at ih
          rw [ih]

theorem splitOnChar_joinWith (d : Char) (ls : List Str) (hne : ls ≠ [])
    (h : ∀ l ∈ ls, ∀ c ∈ l, c ≠ d) :
    splitOnChar d (joinWith d ls) = ls := by
  induction ls with
  | nil => exact absurd rfl hne
  | cons l ls2 ih =>
    cases ls2 with
    | nil =>
      rw [joinWith, splitOnChar]
      exact splitOnPred_all_false _ l
        (fun c hc => by simpa using h l (List.mem_cons_self _ _) c hc)
    | cons l2 ls3 =>
      rw [joinWith, splitOnChar,
        splitOnPred_append_delim _ l _ d (by simp)
          (fun c hc => by simpa using h l (List.mem_cons_self _ _) c hc)]
      rw [splitOnChar] at ih
      rw [ih (by simp) (fun l0 hl0 c hc => h l0 (List.mem_cons_of_mem _ hl0) c hc)]

/-! ## The file finder -/

theorem maskSelect_map (p : Str → Bool) (files : List Str) :
    maskSelect files (files.map p) = files.filter p := by
  induction files with
  | nil => rfl
  | cons f rest ih =>
    rw [List.map_cons, maskSelect, List.filter_cons]
    by_cases h : p f
    · rw [if_pos h, if_pos h, ih]
    · rw [if_neg h, if_neg h, ih]

theorem lastDotSegment_of_no_dot (f : Str) (h : '.' ∉ f) : lastDotSegment f = f := by
  rw [lastDotSegment, splitOnChar,
    splitOnPred_all_false _ f (fun c hc => by
      simp only [beq_eq_false_iff_ne, ne_eq]
      exact fun hcd => h (hcd ▸ hc))]
  rfl

theorem find_files_with_suffix_ok_pathExists (fs : FileSystem) (folder : Str)
    (suffix0 : StrOrList) (L : List Str)
    (h : find_files_with_suffix fs folder suffix0 = .ok L) :
    fs.pathExists folder = true := by
  by_cases hp : fs.pathExists folder = true
  · exact hp
  · rw [find_files_with_suffix, if_neg hp] at h
    exact absurd h (by simp)

/-- C2: for every existing folder and suffix set, the file finder returns
exactly the immediate children whose final dot-delimited segment is an
element of the set (case-sensitive string equality, no recursion), and a
dotless filename is matched against its whole name. -/
theorem find_files_with_suffix_exact (fs : FileSystem) (folder : Str) (S : List Str)
    (h : fs.pathExists folder = true) :
    find_files_with_suffix fs folder (.list S) =
      .ok ((fs.listdir folder).filter (fun f => decide (lastDotSegment f ∈ S))) ∧
    ∀ f : Str, '.' ∉ f → lastDotSegment f = f := by
  constructor
  · rw [find_files_with_suffix, if_pos h]
    show Except.ok (maskSelect (fs.listdir folder)
      (((fs.listdir folder).map lastDotSegment).map (fun s => decide (s ∈ S)))) = _
    rw [List.map_map]
    exact congrArg Except.ok
      (maskSelect_map (fun f => decide (lastDotSegment f ∈ S)) (fs.listdir folder))
  · exact lastDotSegment_of_no_dot

/-- The concrete folder used in witnesses: one image-suffixed file, one
text file, one dotless file. -/
def fsW : FileSystem :=
  { folders := [("att".data, ["a.jpg".data, "b.txt".data, "jpg".data])],
    files := [("att/a.jpg".data, "AB".data), ("att/b.txt".data, "hello".data),
              ("att/jpg".data, "XY".data)],
    images := [("att/a.jpg".data, { height := 2, width := 3 })] }

theorem find_files_with_suffix_exact_witness :
    find_files_with_suffix fsW "att".data (.list ["jpg".data]) =
      .ok (((fsW.listdir "att".data)).filter
        (fun f => decide (lastDotSegment f ∈ ["jpg".data]))) ∧
    lastDotSegment "jpg".data = "jpg".data :=
  ⟨(find_files_with_suffix_exact fsW "att".data ["jpg".data] (by decide)).1,
   (find_files_with_suffix_exact fsW "att".data ["jpg".data] (by decide)).2
     "jpg".data (by decide)⟩

/-! ## Missing-folder failures -/

/-- C5: when the folder does not exist, the file finder, the attachment
composer and the address extractor each fail immediately with a
NotFoundError carrying the assertion message, returning no result. -/
theorem missing_folder_raises_not_found (fs : FileSystem) (folder : Str)
    (suffix0 : StrOrList) (message email_from email_to subject : Str)
    (ms : Nat) (file_suffix : Str)
    (h : fs.pathExists folder = false) :
    find_files_with_suffix fs folder suffix0 =
      .error (.NotFoundError ("Folder ".data ++ folder ++ " does not exist".data)) ∧
    create_message fs message email_from email_to subject folder suffix0 ms =
      .error (.NotFoundError ("Folder ".data ++ folder ++ " does not exist".data)) ∧
    process_email_list fs folder file_suffix =
      .error (.NotFoundError ("Folder ".data ++ folder ++ " does not exist".data)) := by
  refine ⟨?_, ?_, ?_⟩
  · rw [find_files_with_suffix, if_neg (by simp [h])]
  · rw [create_message, if_neg (by simp [h])]
  · rw [process_email_list, if_neg (by simp [h])]

theorem missing_folder_raises_not_found_witness :
    find_files_with_suffix fsW "gone".data (.str "txt".data) =
      .error (.NotFoundError ("Folder ".data ++ "gone".data ++ " does not exist".data)) ∧
    create_message fsW "m".data "f@x".data "t@x".data "s".data "gone".data
        (.str "txt".data) 1024 =
      .error (.NotFoundError ("Folder ".data ++ "gone".data ++ " does not exist".data)) ∧
    process_email_list fsW "gone".data "txt".data =
      .error (.NotFoundError ("Folder ".data ++ "gone".data ++ " does not exist".data)) :=
  missing_folder_raises_not_found fsW "gone".data (.str "txt".data) "m".data "f@x".data
    "t@x".data "s".data 1024 "txt".data (by decide)

/-! ## The attachment composer -/

/-- C7: when the matching file set is empty, the composer succeeds with a
message whose body is the input text and whose attachment list is empty,
for any sender, recipient and subject. -/
theorem create_message_empty_matches (fs : FileSystem)
    (message email_from email_to subject : Str) (folder : Str) (sfx : StrOrList) (ms : Nat)
    (h : find_files_with_suffix fs folder (.list (str2list sfx)) = .ok []) :
    create_message fs message email_from email_to subject folder sfx ms =
      .ok { body := message, email_to := email_to, email_from := email_from,
            subject := subject, attachments := [] } := by
  have hp : fs.pathExists folder = true :=
    find_files_with_suffix_ok_pathExists fs folder _ [] h
  rw [create_message, if_pos hp, h, exBind_ok]
  rfl

theorem create_message_empty_matches_witness :
    create_message fsW "hello".data "f@x".data "t@x".data "s".data "att".data
        (.list ["pdf".data]) 1024 =
      .ok { body := "hello".data, email_to := "t@x".data, email_from := "f@x".data,
            subject := "s".data, attachments := [] } :=
  create_message_empty_matches fsW "hello".data "f@x".data "t@x".data "s".data
    "att".data (.list ["pdf".data]) 1024 (by decide)

theorem attachFiles_types (fs : FileSystem) (folder : Str) (ms : Nat) :
    ∀ (files : List Str) (atts : List Attachment),
      attachFiles fs folder ms files = .ok atts →
      (∀ a ∈ atts, a.maintype = "image".data) ∧
      atts.map (fun a => a.subtype) = files.map lastDotSegment := by
  intro files
  induction files with
  | nil =>
    intro atts h
    rw [attachFiles] at h
    cases h
    simp
  | cons f rest ih =>
    intro atts h
    rw [attachFiles] at h
    cases hImg : is_file_image fs (joinPath folder f) with
    | error e => rw [hImg, exBind_error] at h; cases h
    | ok isImg =>
      rw [hImg, exBind_ok] at h
      cases hData : (if isImg then image2bytes fs (joinPath folder f) ms
                     else Except.ok (fs.readBytes (joinPath folder f))) with
      | error e => rw [hData, exBind_error] at h; cases h
      | ok data =>
        rw [hData, exBind_ok] at h
        cases hRest : attachFiles fs folder ms rest with
        | error e => rw [hRest, exBind_error] at h; cases h
        | ok tailAtts =>
          rw [hRest, exBind_ok] at h
          cases h
          have hTail := ih tailAtts hRest
          constructor
          · intro a ha
            rcases List.mem_cons.mp ha with rfl | ha
            · rfl
            · exact hTail.1 a ha
          · rw [List.map_cons, List.map_cons, hTail.2]

/-- C6: every attachment the composer adds carries the constant placeholder
maintype image, and its declared subtype is the final dot-segment of the
file it came from (the whole filename when there is no dot). -/
theorem create_message_attachment_types (fs : FileSystem)
    (message email_from email_to subject : Str) (folder : Str) (sfx : StrOrList)
    (ms : Nat) (files : List Str) (em : EmailMessage)
    (hf : find_files_with_suffix fs folder (.list (str2list sfx)) = .ok files)
    (hc : create_message fs message email_from email_to subject folder sfx ms = .ok em) :
    (∀ a ∈ em.attachments, a.maintype = "image".data) ∧
    em.attachments.map (fun a => a.subtype) = files.map lastDotSegment := by
  have hp : fs.pathExists folder = true :=
    find_files_with_suffix_ok_pathExists fs folder _ files hf
  rw [create_message, if_pos hp, hf, exBind_ok] at hc
  cases hAtt : attachFiles fs folder ms files with
  | error e => rw [hAtt, exBind_error] at hc; cases hc
  | ok atts =>
    rw [hAtt, exBind_ok] at hc
    cases hc
    exact attachFiles_types fs folder ms files atts hAtt

/-- The message the composer builds over fsW with suffix jpg, used as a
witness value. -/
def emW : EmailMessage :=
  { body := "b".data, email_to := "t@x".data, email_from := "f@x".data,
    subject := "s".data,
    attachments := [{ data := "jpg".data.map Char.toNat ++ [2, 3],
                      maintype := "image".data, subtype := "jpg".data },
                    { data := "XY".data.map Char.toNat, maintype := "image".data,
                      subtype := "jpg".data }] }

theorem create_message_attachment_types_witness :
    emW.attachments.map (fun a => a.subtype) =
      ["a.jpg".data, "jpg".data].map lastDotSegment :=
  (create_message_attachment_types fsW "b".data "f@x".data "t@x".data "s".data
    "att".data (.list ["jpg".data]) 1024 ["a.jpg".data, "jpg".data] emW
    (by decide) (by decide)).2

/-! ## The confirmation prompt -/

theorem pressLoop_skip (inp : Str) (h1 : inp ≠ "Y".data) (h2 : inp ≠ "n".data)
    (l : List Str) : pressLoop inp l = press_Yn_to_continue l := by
  cases l with
  | nil => rw [pressLoop, if_neg h1, if_neg h2]; rfl
  | cons i r => rw [pressLoop, if_neg h1, if_neg h2]; rfl

theorem press_Yn_accepts_Y (rest : List Str) :
    press_Yn_to_continue ("Y".data :: rest) = .returned := by
  show pressLoop "Y".data rest = .returned
  cases rest with
  | nil => rw [pressLoop, if_pos rfl]
  | cons i r => rw [pressLoop, if_pos rfl]

theorem press_Yn_accepts_n (rest : List Str) :
    press_Yn_to_continue ("n".data :: rest) = .exited 1 := by
  show pressLoop "n".data rest = .exited 1
  cases rest with
  | nil => rw [pressLoop, if_neg (by decide), if_pos rfl]
  | cons i r => rw [pressLoop, if_neg (by decide), if_pos rfl]

/-- C8: over any sequence of input lines, the confirmation prompt never
returns control while the most recent input is neither Y nor n (after only
invalid inputs it is still waiting for another line); an n input
terminates the process with non-zero status 1, and a Y input returns
control to the caller. -/
theorem press_Yn_contract (junk rest : List Str)
    (h : ∀ s ∈ junk, s ≠ "Y".data ∧ s ≠ "n".data) :
    press_Yn_to_continue (junk ++ "Y".data :: rest) = .returned ∧
    (press_Yn_to_continue (junk ++ "n".data :: rest) = .exited 1 ∧ (1 : Nat) ≠ 0) ∧
    press_Yn_to_continue junk = .waitingForInput := by
  induction junk with
  | nil =>
    exact ⟨press_Yn_accepts_Y rest, ⟨press_Yn_accepts_n rest, by decide⟩, rfl⟩
  | cons j js ih =>
    have hj := h j (List.mem_cons_self _ _)
    have ihr := ih (fun s hs => h s (List.mem_cons_of_mem _ hs))
    refine ⟨?_, ⟨?_, by decide⟩, ?_⟩
    · show pressLoop j (js ++ "Y".data :: rest) = .returned
      rw [pressLoop_skip j hj.1 hj.2]
      exact ihr.1
    · show pressLoop j (js ++ "n".data :: rest) = .exited 1
      rw [pressLoop_skip j hj.1 hj.2]
      exact ihr.2.1.1
    · show pressLoop j js = .waitingForInput
      rw [pressLoop_skip j hj.1 hj.2]
      exact ihr.2.2

theorem press_Yn_contract_witness :
    press_Yn_to_continue (["x".data, "yes".data] ++ "Y".data :: ["z".data]) = .returned ∧
    (press_Yn_to_continue (["x".data, "yes".data] ++ "n".data :: ["z".data]) = .exited 1 ∧
      (1 : Nat) ≠ 0) ∧
    press_Yn_to_continue ["x".data, "yes".data] = .waitingForInput :=
  press_Yn_contract ["x".data, "yes".data] ["z".data] (by decide)

/-! ## The standalone image-to-bytes precondition -/

/-- C10: for an existing path whose lower-cased name does not end with one
of the whitelisted image extensions, image2bytes fails at entry with the
is-not-an-image validation error, before any decode of the file content:
the result is this error for every file-system content at the path. -/
theorem image2bytes_nonimage_fails (fs : FileSystem) (path : Str) (ms : Nat)
    (hex : fs.pathExists path = true)
    (hni : imageExtensions.any (fun e => endsWithChars (toLowerStr path) e) = false) :
    image2bytes fs path ms = .error (.ValidationError (path ++ " is not an image".data)) := by
  rw [image2bytes, if_pos hex, is_file_image, if_pos hex, exBind_ok, hni]
  rfl

theorem image2bytes_nonimage_fails_witness :
    image2bytes fsW "att/b.txt".data 77 =
      .error (.ValidationError ("att/b.txt".data ++ " is not an image".data)) :=
  image2bytes_nonimage_fails fsW "att/b.txt".data 77 (by decide) (by decide)

/-! ## Dotless image-named files -/

theorem imageNamed_dotless_not_image (folder name : Str)
    (h : name ∈ ["png".data, "jpg".data, "jpeg".data, "tiff".data,
                 "bmp".data, "gif".data]) :
    imageExtensions.any (fun e => endsWithChars (toLowerStr (joinPath folder name)) e) =
      false := by
  have hd : name = "png".data ∨ name = "jpg".data ∨ name = "jpeg".data ∨
      name = "tiff".data ∨ name = "bmp".data ∨ name = "gif".data := by
    simpa using h
  rcases hd with rfl | rfl | rfl | rfl | rfl | rfl <;>
    simp [imageExtensions, endsWithChars, toLowerStr, joinPath, startsWithChars,
      String.data]

/-- A folder holding exactly one dotless file named jpg with two raw
bytes, used as the witness for the dotless-name scenario. -/
def fsD : FileSystem :=
  { folders := [("att".data, ["jpg".data])],
    files := [("att/jpg".data, "XY".data)],
    images := [] }

/-- C9: a dotless file whose whole name is one of the image suffixes is
matched by the file finder when that suffix is in the filter, yet the
image classifier reports it as a non-image (its check needs a literal
dot-extension), so the composer attaches its raw bytes unmodified with the
whole filename as the declared subtype. -/
theorem dotless_image_named_file (fs : FileSystem) (folder name content : Str)
    (S : List Str) (message email_from email_to subject : Str) (ms : Nat)
    (hdir : fs.folders.lookup folder = some [name])
    (hfile : fs.files.lookup (joinPath folder name) = some content)
    (hname : name ∈ ["png".data, "jpg".data, "jpeg".data, "tiff".data,
                     "bmp".data, "gif".data])
    (hdot : '.' ∉ name) (hS : name ∈ S) :
    find_files_with_suffix fs folder (.list S) = .ok [name] ∧
    is_file_image fs (joinPath folder name) = .ok false ∧
    create_message fs message email_from email_to subject folder (.list S) ms =
      .ok { body := message, email_to := email_to, email_from := email_from,
            subject := subject,
            attachments := [{ data := content.map Char.toNat,
                              maintype := "image".data, subtype := name }] } := by
  have hpf : fs.pathExists folder = true := by
    rw [FileSystem.pathExists, hdir]
    rfl
  have hpp : fs.pathExists (joinPath folder name) = true := by
    rw [FileSystem.pathExists, hfile]
    simp
  have hfind : find_files_with_suffix fs folder (.list S) = .ok [name] := by
    rw [find_files_with_suffix, if_pos hpf]
    simp [FileSystem.listdir, hdir, str2list, lastDotSegment_of_no_dot name hdot,
      hS, maskSelect]
  have hisim : is_file_image fs (joinPath folder name) = .ok false := by
    rw [is_file_image, if_pos hpp, imageNamed_dotless_not_image folder name hname]
  refine ⟨hfind, hisim, ?_⟩
  rw [create_message, if_pos hpf]
  rw [show str2list (StrOrList.list S) = S from rfl, hfind, exBind_ok, attachFiles,
    hisim, exBind_ok]
  simp [exBind_ok, attachFiles, FileSystem.readBytes, FileSystem.readText, hfile,
    lastDotSegment_of_no_dot name hdot, exBind]

theorem dotless_image_named_file_witness :
    find_files_with_suffix fsD "att".data (.list ["jpg".data]) = .ok ["jpg".data] ∧
    is_file_image fsD (joinPath "att".data "jpg".data) = .ok false ∧
    create_message fsD "m".data "f@x".data "t@x".data "s".data "att".data
        (.list ["jpg".data]) 9 =
      .ok { body := "m".data, email_to := "t@x".data, email_from := "f@x".data,
            subject := "s".data,
            attachments := [{ data := "XY".data.map Char.toNat,
                              maintype := "image".data, subtype := "jpg".data }] } :=
  dotless_image_named_file fsD "att".data "jpg".data "XY".data ["jpg".data]
    "m".data "f@x".data "t@x".data "s".data 9 (by decide) (by decide) (by decide)
    (by decide) (by decide)

/-! ## The address extractor scenario -/

/-- The folder of the C3 scenario: one text file with the two lines of the
specification example. -/
def fsC3 : FileSystem :=
  { folders := [("addr".data, ["emails.txt".data])],
    files := [("addr/emails.txt".data,
               "Alice <alice@example.com>;\nnotanemail bob@test.org".data)],
    images := [] }

/-- C3: on a folder with one file whose lines are the two example lines,
the address extractor returns exactly the two addresses in first-occurrence
order, lower-cased, with angle brackets stripped. -/
theorem process_email_list_scenario :
    process_email_list fsC3 "addr".data =
      .ok ["alice@example.com".data, "bob@test.org".data] := by
  decide

/-! ## The image resize step -/

theorem roundedScale_exact (ms pm : Nat) (h : 0 < pm) :
    roundedScale pm ms pm = ms := by
  rw [roundedScale]
  have hpm : ((pm : ℚ)) ≠ 0 := by positivity
  have hx : (pm : ℚ) * ms / pm = (ms : ℚ) := by
    field_simp
  rw [hx, round_natCast]
  simp

theorem roundedScale_le (d ms pm : Nat) (hd : d ≤ pm) (h : 0 < pm) :
    roundedScale d ms pm ≤ ms := by
  rw [roundedScale]
  have hpm : (0 : ℚ) < pm := by positivity
  have h1 : (d : ℚ) * ms / pm ≤ (ms : ℚ) := by
    rw [div_le_iff₀ hpm]
    have hdq : (d : ℚ) ≤ pm := by exact_mod_cast hd
    nlinarith [Nat.cast_nonneg (α := ℚ) ms]
  have h2 : round ((d : ℚ) * ms / pm) ≤ round ((ms : ℕ) : ℚ) := by
    rw [round_eq, round_eq]
    exact Int.floor_le_floor (by linarith)
  rw [round_natCast] at h2
  exact Int.toNat_le.mpr h2

theorem roundedScale_close (d ms pm : Nat) :
    |((roundedScale d ms pm : Nat) : ℚ) - (d : ℚ) * ms / pm| ≤ 1 / 2 := by
  rw [roundedScale]
  set x : ℚ := (d : ℚ) * ms / pm with hxdef
  have hx : (0 : ℚ) ≤ x := by positivity
  have h0 : 0 ≤ round x := by
    rw [round_eq]
    exact Int.floor_nonneg.mpr (by linarith)
  have hcast : (((round x).toNat : Nat) : ℚ) = ((round x : ℤ) : ℚ) := by
    exact_mod_cast Int.toNat_of_nonneg h0
  rw [hcast, abs_sub_comm]
  exact abs_sub_round x

/-- C4: when the longer spatial dimension exceeds max_size the resize step
rescales both dimensions by max_size over the longer one, so the output
longer dimension equals max_size exactly and each output dimension is
within one half of the exactly scaled value; when the longer dimension is
at most max_size the image passes through unresized. -/
theorem resizeIfTooLarge_spec (img : Image) (ms : Nat) :
    (ms < max img.height img.width →
      max (resizeIfTooLarge img ms).height (resizeIfTooLarge img ms).width = ms ∧
      |(((resizeIfTooLarge img ms).height : Nat) : ℚ) -
        (img.height : ℚ) * ms / (max img.height img.width : Nat)| ≤ 1 / 2 ∧
      |(((resizeIfTooLarge img ms).width : Nat) : ℚ) -
        (img.width : ℚ) * ms / (max img.height img.width : Nat)| ≤ 1 / 2) ∧
    (max img.height img.width ≤ ms → resizeIfTooLarge img ms = img) := by
  constructor
  · intro hlt
    have hpm : 0 < max img.height img.width := lt_of_le_of_lt (Nat.zero_le ms) hlt
    simp only [resizeIfTooLarge]
    rw [if_pos hlt]
    refine ⟨?_, roundedScale_close _ _ _, roundedScale_close _ _ _⟩
    show max (roundedScale img.height ms (max img.height img.width))
        (roundedScale img.width ms (max img.height img.width)) = ms
    rcases Nat.le_total img.width img.height with hc | hc
    · rw [Nat.max_eq_left hc] at hpm ⊢
      rw [roundedScale_exact ms img.height hpm]
      exact Nat.max_eq_left (roundedScale_le img.width ms img.height hc hpm)
    · rw [Nat.max_eq_right hc] at hpm ⊢
      rw [roundedScale_exact ms img.width hpm]
      exact Nat.max_eq_right (roundedScale_le img.height ms img.width hc hpm)
  · intro hle
    simp only [resizeIfTooLarge]
    rw [if_neg (Nat.not_lt.mpr hle)]

theorem resizeIfTooLarge_spec_witness :
    max (resizeIfTooLarge { height := 2048, width := 1536 } 1024).height
        (resizeIfTooLarge { height := 2048, width := 1536 } 1024).width = 1024 ∧
    |(((resizeIfTooLarge { height := 2048, width := 1536 } 1024).height : Nat) : ℚ) -
      (({ height := 2048, width := 1536 } : Image).height : ℚ) * 1024 /
      (max ({ height := 2048, width := 1536 } : Image).height
        ({ height := 2048, width := 1536 } : Image).width : Nat)| ≤ 1 / 2 ∧
    |(((resizeIfTooLarge { height := 2048, width := 1536 } 1024).width : Nat) : ℚ) -
      (({ height := 2048, width := 1536 } : Image).width : ℚ) * 1024 /
      (max ({ height := 2048, width := 1536 } : Image).height
        ({ height := 2048, width := 1536 } : Image).width : Nat)| ≤ 1 / 2 :=
  (resizeIfTooLarge_spec { height := 2048, width := 1536 } 1024).1 (by decide)

/-! ## Base64 lemmas -/

theorem b64Value_b64Char : ∀ n < 64, b64Value (b64Char n) = n := by decide

theorem b64Char_mem (n : Nat) : b64Char n ∈ b64Alphabet := by
  rw [b64Char]
  by_cases h : n < b64Alphabet.length
  · rw [List.getD_eq_getElem b64Alphabet 'A' h]
    exact List.getElem_mem h
  · rw [List.getD_eq_default b64Alphabet 'A' (Nat.le_of_not_lt h)]
    decide

theorem b64Alphabet_chars : ∀ c ∈ b64Alphabet, c ≠ '\n' ∧ c ≠ '#' ∧ c.toNat < 256 := by
  decide

theorem b64Char_ne_pad (n : Nat) : b64Char n ≠ '=' := by
  intro h
  have := b64Char_mem n
  rw [h] at this
  exact absurd this (by decide)

theorem mem_b64encodeBytes : ∀ (bs : List Nat), ∀ c ∈ b64encodeBytes bs,
    c ∈ b64Alphabet ∨ c = '='
  | [] => by simp [b64encodeBytes]
  | [a] => by
    intro c hc
    rw [b64encodeBytes] at hc
    simp only [List.mem_cons] at hc
    rcases hc with rfl | rfl | rfl | rfl | h
    · exact .inl (b64Char_mem _)
    · exact .inl (b64Char_mem _)
    · exact .inr rfl
    · exact .inr rfl
    · exact absurd h (by simp)
  | [a, b] => by
    intro c hc
    rw [b64encodeBytes] at hc
    simp only [List.mem_cons] at hc
    rcases hc with rfl | rfl | rfl | rfl | h
    · exact .inl (b64Char_mem _)
    · exact .inl (b64Char_mem _)
    · exact .inl (b64Char_mem _)
    · exact .inr rfl
    · exact absurd h (by simp)
  | a :: b :: c0 :: rest => by
    intro c hc
    rw [b64encodeBytes] at hc
    simp only [List.mem_cons] at hc
    rcases hc with rfl | rfl | rfl | rfl | h
    · exact .inl (b64Char_mem _)
    · exact .inl (b64Char_mem _)
    · exact .inl (b64Char_mem _)
    · exact .inl (b64Char_mem _)
    · exact mem_b64encodeBytes rest c h

theorem b64_roundtrip : ∀ (bs : List Nat), (∀ b ∈ bs, b < 256) →
    b64decodeBytes (b64encodeBytes bs) = bs
  | [] => by
    intro _
    rfl
  | [a] => by
    intro h
    have ha : a < 256 := h a (by simp)
    rw [b64encodeBytes, b64decodeBytes, if_pos rfl,
      b64Value_b64Char _ (by omega), b64Value_b64Char _ (by omega)]
    simp only [List.cons.injEq, and_true]
    omega
  | [a, b] => by
    intro h
    have ha : a < 256 := h a (by simp)
    have hb : b < 256 := h b (by simp)
    rw [b64encodeBytes, b64decodeBytes, if_neg (b64Char_ne_pad _), if_pos rfl,
      b64Value_b64Char _ (by omega), b64Value_b64Char _ (by omega),
      b64Value_b64Char _ (by omega)]
    simp only [List.cons.injEq, and_true]
    omega
  | a :: b :: c0 :: rest => by
    intro h
    have ha : a < 256 := h a (by simp)
    have hb : b < 256 := h b (by simp)
    have hc0 : c0 < 256 := h c0 (by simp)
    rw [b64encodeBytes, b64decodeBytes, if_neg (b64Char_ne_pad _),
      if_neg (b64Char_ne_pad _),
      b64Value_b64Char _ (by omega), b64Value_b64Char _ (by omega),
      b64Value_b64Char _ (by omega), b64Value_b64Char _ (by omega)]
    rw [b64_roundtrip rest (fun x hx => h x (by simp [hx]))]
    simp only [List.cons_append, List.nil_append, List.cons.injEq, and_true]
    refine ⟨by omega, by omega, by omega⟩

/-! ## Serialization lemmas -/

theorem mem_joinWith (d : Char) : ∀ (ls : List Str), ∀ c ∈ joinWith d ls,
    c = d ∨ ∃ l ∈ ls, c ∈ l
  | [] => by simp [joinWith]
  | [l] => by
    intro c hc
    rw [joinWith] at hc
    exact .inr ⟨l, by simp, hc⟩
  | l :: l2 :: ls => by
    intro c hc
    rw [joinWith] at hc
    rcases List.mem_append.mp hc with h1 | h2
    · exact .inr ⟨l, by simp, h1⟩
    · rcases List.mem_cons.mp h2 with rfl | h3
      · exact .inl rfl
      · rcases mem_joinWith d (l2 :: ls) c h3 with h4 | ⟨l0, hl0, hcl0⟩
        · exact .inl h4
        · exact .inr ⟨l0, List.mem_cons_of_mem _ hl0, hcl0⟩

theorem takeWhile_append_all {α : Type} (p : α → Bool) (xs ys : List α)
    (h : ∀ x ∈ xs, p x = true) :
    (xs ++ ys).takeWhile p = xs ++ ys.takeWhile p := by
  induction xs with
  | nil => simp
  | cons a l ih =>
    rw [List.cons_append, List.takeWhile_cons, if_pos (h a (by simp)),
      ih (fun x hx => h x (by simp [hx])), List.cons_append]

theorem takeWhile_all {α : Type} (p : α → Bool) (xs : List α)
    (h : ∀ x ∈ xs, p x = true) : xs.takeWhile p = xs := by
  simpa using takeWhile_append_all p xs [] h

theorem ct_line_ne_boundary (x : Str) : "Content-Type: ".data ++ x ≠ mimeBoundary := by
  intro h
  have h1 : List.take 1 ("Content-Type: ".data ++ x) = List.take 1 mimeBoundary :=
    congrArg (List.take 1) h
  have h2 : (['C'] : Str) = ['#'] := h1
  exact absurd h2 (by decide)

theorem b64_line_ne_boundary (bs : List Nat) : b64encodeBytes bs ≠ mimeBoundary := by
  intro h
  have hm : '#' ∈ b64encodeBytes bs := by
    rw [h]
    decide
  rcases mem_b64encodeBytes bs '#' hm with h1 | h2
  · exact (b64Alphabet_chars '#' h1).2.1 rfl
  · exact absurd h2 (by decide)

theorem count_boundary_lines : ∀ (atts : List Attachment),
    ((atts.flatMap attachmentLines).filter
      (fun l => decide (l = mimeBoundary))).length = atts.length
  | [] => by simp
  | a :: rest => by
    have hfil : (attachmentLines a).filter (fun l => decide (l = mimeBoundary)) =
        [mimeBoundary] := by
      rw [attachmentLines, List.filter_cons, List.filter_cons, List.filter_cons,
        List.filter_cons, List.filter_nil]
      rw [if_pos (by simp),
        if_neg (by simp only [decide_eq_true_eq]; exact ct_line_ne_boundary _),
        if_neg (by decide),
        if_neg (by simp only [decide_eq_true_eq]; exact b64_line_ne_boundary _)]
    rw [List.flatMap_cons, List.filter_append, hfil, List.length_append,
      count_boundary_lines rest]
    simp [List.length_cons]
    omega

theorem messageLines_chars (m : EmailMessage)
    (hto : '\n' ∉ m.email_to) (hfrom : '\n' ∉ m.email_from)
    (hsubj : '\n' ∉ m.subject)
    (hto256 : ∀ c ∈ m.email_to, c.toNat < 256)
    (hfrom256 : ∀ c ∈ m.email_from, c.toNat < 256)
    (hsubj256 : ∀ c ∈ m.subject, c.toNat < 256)
    (hbody256 : ∀ c ∈ m.body, c.toNat < 256)
    (hatt : ∀ a ∈ m.attachments, ('\n' ∉ a.maintype ∧ '\n' ∉ a.subtype) ∧
      (∀ c ∈ a.maintype, c.toNat < 256) ∧ ∀ c ∈ a.subtype, c.toNat < 256) :
    ∀ l ∈ messageLines m, ∀ c ∈ l, c ≠ '\n' ∧ c.toNat < 256 := by
  intro l hl c hc
  rw [messageLines] at hl
  simp only [List.mem_cons, List.mem_append, List.mem_flatMap] at hl
  rcases hl with rfl | rfl | rfl | rfl | hbl | ⟨a, ha, hal⟩
  · rcases List.mem_append.mp hc with h1 | h2
    · exact (by decide : ∀ c ∈ "To: ".data, c ≠ '\n' ∧ c.toNat < 256) c h1
    · exact ⟨fun hh => hto (hh ▸ h2), hto256 c h2⟩
  · rcases List.mem_append.mp hc with h1 | h2
    · exact (by decide : ∀ c ∈ "From: ".data, c ≠ '\n' ∧ c.toNat < 256) c h1
    · exact ⟨fun hh => hfrom (hh ▸ h2), hfrom256 c h2⟩
  · rcases List.mem_append.mp hc with h1 | h2
    · exact (by decide : ∀ c ∈ "Subject: ".data, c ≠ '\n' ∧ c.toNat < 256) c h1
    · exact ⟨fun hh => hsubj (hh ▸ h2), hsubj256 c h2⟩
  · simp at hc
  · have hm := splitOnPred_mem (fun x => x == '\n') m.body l hbl c hc
    refine ⟨fun hh => ?_, hbody256 c hm.1⟩
    rw [hh] at hm
    simpa using hm.2
  · rw [attachmentLines] at hal
    simp only [List.mem_cons, List.not_mem_nil, or_false] at hal
    rcases hal with rfl | rfl | rfl | rfl
    · exact (by decide : ∀ c ∈ mimeBoundary, c ≠ '\n' ∧ c.toNat < 256) c hc
    · rcases List.mem_append.mp hc with h1 | h2
      · rcases List.mem_append.mp h1 with h3 | h4
        · exact (by decide : ∀ c ∈ "Content-Type: ".data, c ≠ '\n' ∧ c.toNat < 256) c h3
        · exact ⟨fun hh => (hatt a ha).1.1 (hh ▸ h4), (hatt a ha).2.1 c h4⟩
      · rcases List.mem_cons.mp h2 with rfl | h5
        · exact ⟨by decide, by decide⟩
        · exact ⟨fun hh => (hatt a ha).1.2 (hh ▸ h5), (hatt a ha).2.2 c h5⟩
    · simp at hc
    · rcases mem_b64encodeBytes a.data c hc with h1 | rfl
      · exact ⟨(b64Alphabet_chars c h1).1, (b64Alphabet_chars c h1).2.2⟩
      · exact ⟨by decide, by decide⟩

/-- C1: serialization wraps the base64url encoding of the full message
byte serialization in a record under the key raw, and decoding that
payload and re-parsing the bytes as a message recovers the sender,
recipient, subject, body and attachment count of the original message.
The side conditions say the header fields and body are newline-sane
Latin-1 text and no body line collides with the chosen MIME boundary,
mirroring the boundary-freshness the real MIME serializer guarantees. -/
theorem message2bytes_roundtrip (m : EmailMessage)
    (hto : '\n' ∉ m.email_to) (hfrom : '\n' ∉ m.email_from)
    (hsubj : '\n' ∉ m.subject)
    (hto256 : ∀ c ∈ m.email_to, c.toNat < 256)
    (hfrom256 : ∀ c ∈ m.email_from, c.toNat < 256)
    (hsubj256 : ∀ c ∈ m.subject, c.toNat < 256)
    (hbody256 : ∀ c ∈ m.body, c.toNat < 256)
    (hbodyb : ∀ l ∈ splitOnChar '\n' m.body, l ≠ mimeBoundary)
    (hatt : ∀ a ∈ m.attachments, ('\n' ∉ a.maintype ∧ '\n' ∉ a.subtype) ∧
      (∀ c ∈ a.maintype, c.toNat < 256) ∧ ∀ c ∈ a.subtype, c.toNat < 256) :
    (message2bytes m).raw = b64encodeBytes (serializeMessage m) ∧
    parseMessage (b64decodeBytes (message2bytes m).raw) =
      some { email_to := m.email_to, email_from := m.email_from,
             subject := m.subject, body := m.body,
             attachmentCount := m.attachments.length } := by
  have hlines := messageLines_chars m hto hfrom hsubj hto256 hfrom256 hsubj256
    hbody256 hatt
  refine ⟨rfl, ?_⟩
  have hbytes : ∀ b ∈ serializeMessage m, b < 256 := by
    intro b hb
    rw [serializeMessage] at hb
    rcases List.mem_map.mp hb with ⟨c, hcj, rfl⟩
    rcases mem_joinWith '\n' (messageLines m) c hcj with rfl | ⟨l, hhl, hcl⟩
    · decide
    · exact (hlines l hhl c hcl).2
  have hdec : b64decodeBytes (message2bytes m).raw = serializeMessage m :=
    b64_roundtrip _ hbytes
  rw [hdec, parseMessage]
  have hmap : (serializeMessage m).map Char.ofNat = joinWith '\n' (messageLines m) := by
    rw [serializeMessage, List.map_map]
    have hcong : ∀ c ∈ joinWith '\n' (messageLines m), (Char.ofNat ∘ Char.toNat) c = c := by
      intro c _
      simp [Function.comp, Char.ofNat_toNat]
    rw [List.map_congr_left hcong]
    simp
  rw [hmap, splitOnChar_joinWith '\n' (messageLines m) (by rw [messageLines]; simp)
    (fun l hl c hc => (hlines l hl c hc).1)]
  rw [messageLines, parseLines]
  rw [if_pos ⟨rfl, rfl, rfl, rfl⟩]
  have hTW : (splitOnChar '\n' m.body ++ m.attachments.flatMap attachmentLines).takeWhile
      (fun l => decide (l ≠ mimeBoundary)) = splitOnChar '\n' m.body := by
    have hall : ∀ l ∈ splitOnChar '\n' m.body,
        (fun l => decide (l ≠ mimeBoundary)) l = true :=
      fun l hl => decide_eq_true (hbodyb l hl)
    cases hAtts : m.attachments with
    | nil =>
      rw [List.flatMap_nil, List.append_nil]
      exact takeWhile_all _ _ hall
    | cons a rest =>
      rw [List.flatMap_cons, takeWhile_append_all _ _ _ hall, attachmentLines,
        List.cons_append, List.takeWhile_cons]
      rw [if_neg (by simp), List.append_nil]
  have hCount : ((splitOnChar '\n' m.body ++ m.attachments.flatMap
      attachmentLines).filter (fun l => decide (l = mimeBoundary))).length =
      m.attachments.length := by
    rw [List.filter_append]
    have hnil : (splitOnChar '\n' m.body).filter (fun l => decide (l = mimeBoundary)) = [] := by
      rw [List.filter_eq_nil_iff]
      intro l hl
      simpa using hbodyb l hl
    rw [hnil, List.nil_append, count_boundary_lines]
  rw [hTW, joinWith_splitOnChar, hCount]
  rfl

/-- A concrete message with a multi-line body and two attachments, used as
the round-trip witness. -/
def msgW : EmailMessage :=
  { body := "hello\nworld".data, email_to := "to@x.io".data,
    email_from := "fr@y.io".data, subject := "Report".data,
    attachments := [{ data := [0, 77, 255], maintype := "image".data,
                      subtype := "png".data },
                    { data := [], maintype := "image".data, subtype := "txt".data }] }

theorem message2bytes_roundtrip_witness :
    (message2bytes msgW).raw = b64encodeBytes (serializeMessage msgW) ∧
    parseMessage (b64decodeBytes (message2bytes msgW).raw) =
      some { email_to := msgW.email_to, email_from := msgW.email_from,
             subject := msgW.subject, body := msgW.body,
             attachmentCount := msgW.attachments.length } :=
  message2bytes_roundtrip msgW (by decide) (by decide) (by decide) (by decide)
    (by decide) (by decide) (by decide) (by decide) (by decide)
